import Mathlib

/-!
Shallow embedding of the qGAN training pipeline of `src/qibo/models/qgan.py` and
of the `IcarusQ.download` hardware routine of `src/qibo/hardware/qpu.py`.
Floating-point numbers are modelled as rationals; external collaborators (the
quantum circuit simulator, the Keras discriminator, the process-wide random
generator, the SFTP transport) are modelled as explicit function parameters.
-/

namespace Qgan

/-- State of the `qGAN.set_params` traversal.  `p` is the list of emitted
angles, `index` the running index into the parameter vector, `noise` the
running index into the latent dimension, `i` the Python variable `i` (bound to
the sample index on entry, and overwritten by the ring loop
`for i in range(0, self.nqubits-1)` of the source), and `trace` records for
each emitted angle the pair (parameter index read, noise index read). -/
structure SPState where
  p : List ℚ
  index : ℕ
  noise : ℕ
  i : ℕ
  trace : List (ℕ × ℕ)
deriving DecidableEq

/-- Embedding of the statement pair
`p.append(params[index]*x_input[noise][i] + params[index+1]); index += 2`
(a read at an out-of-range position is recorded in `trace` and reads as `0`). -/
def emit (params : List ℚ) (x : ℕ → ℕ → ℚ) (s : SPState) : SPState :=
  { s with
    p := s.p ++ [params.getD s.index 0 * x s.noise s.i + params.getD (s.index + 1) 0]
    index := s.index + 2
    trace := s.trace ++ [(s.index, s.noise)] }

/-- Embedding of `noise = (noise+1) % self.latent_dim`. -/
def adv (ld : ℕ) (s : SPState) : SPState := { s with noise := (s.noise + 1) % ld }

/-- Rebinding of the Python variable `i` performed by the loop header
`for i in range(0, self.nqubits-1)` inside `set_params`. -/
def seti (k : ℕ) (s : SPState) : SPState := { s with i := k }

/-- Body of `for q in range(self.nqubits)` in `set_params` (qgan.py lines
97-108): four angles, the noise index advancing after the first, the third and
the fourth emission. -/
def qubitStep (params : List ℚ) (x : ℕ → ℕ → ℚ) (ld : ℕ) (s : SPState) : SPState :=
  adv ld (emit params x (adv ld (emit params x (emit params x (adv ld (emit params x s))))))

/-- Body of the ring loop `for i in range(0, self.nqubits-1)` (qgan.py lines
109-112): the loop variable is assigned to `i`, one angle is emitted, the
noise index advances. -/
def ringStep (params : List ℚ) (x : ℕ → ℕ → ℚ) (ld : ℕ) (k : ℕ) (s : SPState) : SPState :=
  adv ld (emit params x (seti k s))

/-- Body of `for l in range(self.layers)` (qgan.py lines 96-115): the per-qubit
loop, the ring loop, then the closing two-qubit angle with a final advance. -/
def layerStep (params : List ℚ) (x : ℕ → ℕ → ℚ) (ld nqubits : ℕ) (s : SPState) : SPState :=
  adv ld (emit params x
    ((List.range (nqubits - 1)).foldl (fun t k => ringStep params x ld k t)
      ((qubitStep params x ld)^[nqubits] s)))

/-- Loops of `qGAN.set_params` as a state transformer: the layer loop followed
by the trailing per-qubit loop (qgan.py lines 116-119). -/
def set_params_run (layers nqubits ld : ℕ) (params : List ℚ) (x : ℕ → ℕ → ℚ)
    (s : SPState) : SPState :=
  (fun t => adv ld (emit params x t))^[nqubits]
    ((layerStep params x ld nqubits)^[layers] s)

/-- Embedding of `qGAN.set_params(circuit, params, x_input, i)`: `params` is
the trainable parameter vector, `x` the transposed latent matrix (`x ν j` is
row `ν`, column `j`) and `i` the sample index.  The local state starts with
`index = 0`, `noise = 0` and an empty angle list. -/
def set_params (layers nqubits ld : ℕ) (params : List ℚ) (x : ℕ → ℕ → ℚ)
    (i : ℕ) : SPState :=
  set_params_run layers nqubits ld params x ⟨[], 0, 0, i, []⟩

/-- Bookkeeping contract of a compound step of the `set_params` traversal that
emits `k` angles: the parameter index advances by `2*k`, one angle is appended
per emission, the emissions read the `k` consecutive parameter pairs starting
at the entry index, and the noise index stays below `ld`. -/
def StepOk (ld k : ℕ) (f : SPState → SPState) : Prop :=
  ∀ s : SPState,
    (f s).index = s.index + 2 * k ∧
    (f s).p.length = s.p.length + k ∧
    (f s).trace.map Prod.fst = s.trace.map Prod.fst ++
      (List.range k).map (fun j => s.index + 2 * j) ∧
    (s.noise < ld → (f s).noise < ld) ∧
    (s.noise < ld → ∀ e ∈ (f s).trace, e ∈ s.trace ∨ e.2 < ld)

/-- Gates of the generator circuit template, as added by `qGAN.execute`.  Each
constructor carries the qubit indices and the rotation angle of one
parameterised gate slot. -/
inductive Gate
  | ry : ℕ → ℚ → Gate
  | rz : ℕ → ℚ → Gate
  | cry : ℕ → ℕ → ℚ → Gate
deriving DecidableEq

/-- Gate sequence of one layer of the template built in `qGAN.execute` (qgan.py
lines 251-259): four rotations per qubit, the `nqubits - 1` ring gates, the
closing ring gate. -/
def layerGates (nqubits : ℕ) : List Gate :=
  (List.range nqubits).flatMap
      (fun q => [Gate.ry q 0, Gate.rz q 0, Gate.ry q 0, Gate.rz q 0]) ++
    (List.range (nqubits - 1)).map (fun k => Gate.cry k (k + 1) 0) ++
    [Gate.cry (nqubits - 1) 0 0]

/-- Circuit template built by `qGAN.execute` (qgan.py lines 250-261): `layers`
copies of `layerGates` followed by one trailing rotation per qubit. -/
def buildCircuit (layers nqubits : ℕ) : List Gate :=
  (List.range layers).flatMap (fun _ => layerGates nqubits) ++
    (List.range nqubits).map (fun q => Gate.ry q 0)

/-- Pair state describing only the noise-index bookkeeping of `set_params`:
the current noise index together with the list of noise indices read so far. -/
def recN (t : ℕ × List ℕ) : ℕ × List ℕ := (t.1, t.2 ++ [t.1])

/-- Noise advance `noise = (noise+1) % latent_dim` on the pair state. -/
def advN (ld : ℕ) (t : ℕ × List ℕ) : ℕ × List ℕ := ((t.1 + 1) % ld, t.2)

/-- Ring-angle bookkeeping: one noise read followed by an advance. -/
def ringNoise (ld : ℕ) (t : ℕ × List ℕ) : ℕ × List ℕ := advN ld (recN t)

/-- Noise schedule of one per-qubit block as claim C3 words it: the noise
index advances after the first, the second and the third angle, not after the
fourth. -/
def qubitNoiseClaim (ld : ℕ) (t : ℕ × List ℕ) : ℕ × List ℕ :=
  recN (advN ld (recN (advN ld (recN (advN ld (recN t))))))

/-- Layer noise schedule under claim C3's wording: the per-qubit blocks, then
`nqubits` ring angles each advancing the noise index. -/
def layerNoiseClaim (ld nqubits : ℕ) (t : ℕ × List ℕ) : ℕ × List ℕ :=
  (ringNoise ld)^[nqubits] ((qubitNoiseClaim ld)^[nqubits] t)

/-- Full noise-read schedule of `set_params` as claim C3 describes it, with
one trailing angle per qubit after the layers. -/
def noiseTraceClaim (layers nqubits ld : ℕ) : List ℕ :=
  ((ringNoise ld)^[nqubits] ((layerNoiseClaim ld nqubits)^[layers] (0, []))).2

/-- Noise schedule of one per-qubit block as the source implements it: the
noise index advances after the first, the third and the fourth angle, not
after the second. -/
def qubitNoiseAmended (ld : ℕ) (t : ℕ × List ℕ) : ℕ × List ℕ :=
  advN ld (recN (advN ld (recN (recN (advN ld (recN t))))))

/-- Layer noise schedule with the corrected per-qubit block: the per-qubit
blocks, the `nqubits - 1` ring angles, the closing ring angle, each ring angle
advancing the noise index. -/
def layerNoiseAmended (ld nqubits : ℕ) (t : ℕ × List ℕ) : ℕ × List ℕ :=
  ringNoise ld ((ringNoise ld)^[nqubits - 1] ((qubitNoiseAmended ld)^[nqubits] t))

/-- Full noise-read schedule of `set_params` with the corrected per-qubit
block and one trailing angle per qubit, each advancing the noise index. -/
def noiseTraceAmended (layers nqubits ld : ℕ) : List ℕ :=
  ((ringNoise ld)^[nqubits] ((layerNoiseAmended ld nqubits)^[layers] (0, []))).2

/-- Projection of the `set_params` state to its noise bookkeeping. -/
def proj (s : SPState) : ℕ × List ℕ := (s.noise, s.trace.map Prod.snd)

/-- Embedding of `qGAN.generate_fake_samples` (qgan.py lines 130-149):
`expect p ii` is the external simulator's expectation value of the `ii`-th
observable once the circuit parameters are set to `p`; `x` is the freshly
drawn, transposed latent matrix.  Returns the feature matrix (one row per
sample, one column per qubit, as assembled by `tf.stack(..., axis=1)`) and the
all-zeros class labels. -/
def generate_fake_samples (expect : List ℚ → ℕ → ℚ) (layers nqubits ld : ℕ)
    (params : List ℚ) (x : ℕ → ℕ → ℚ) (samples : ℕ) : List (List ℚ) × List ℚ :=
  ((List.range samples).map (fun j =>
      (List.range nqubits).map
        (fun ii => expect (set_params layers nqubits ld params x j).p ii)),
    List.replicate samples 0)

/-- Pointwise binary cross-entropy with an abstract logarithm, as applied by
`tf.keras.losses.binary_crossentropy` to one label/prediction pair. -/
def binary_crossentropy (log : ℚ → ℚ) (y p : ℚ) : ℚ :=
  -(y * log p + (1 - y) * log (1 - p))

/-- Mean reduction `tf.reduce_mean` over a list of scalars. -/
def mean (l : List ℚ) : ℚ := l.sum / l.length

/-- Embedding of `qGAN.define_cost_gan` (qgan.py lines 151-161): generate a
fresh fake batch, overwrite its labels with ones, evaluate the discriminator
`D` on the fake features, and mean-reduce the binary cross-entropy against
the all-ones target. -/
def define_cost_gan (expect : List ℚ → ℕ → ℚ) (log : ℚ → ℚ)
    (D : List (List ℚ) → List ℚ) (layers nqubits ld : ℕ) (params : List ℚ)
    (x : ℕ → ℕ → ℚ) (samples : ℕ) : ℚ :=
  let fake := generate_fake_samples expect layers nqubits ld params x samples
  let y_fake : List ℚ := List.replicate samples 1
  let disc_output := D fake.1
  mean (List.zipWith (binary_crossentropy log) y_fake disc_output)

/-- Embedding of the inner function `generate_real_samples` of `qGAN.train`
(qgan.py lines 166-173): `idx` models the draw
`np.random.randint(real_samples, size=samples)`; the labels are all ones. -/
def generate_real_samples (samples : ℕ) (distribution : ℕ → List ℚ)
    (real_samples : ℕ) (idx : ℕ → ℕ) : List (List ℚ) × List ℚ :=
  ((List.range samples).map (fun j => distribution (idx j)),
    List.replicate samples 1)

/-- Content of a checkpoint artifact: a plain-text numeric file written by
`np.savetxt`, or the binary HDF5 weights file written by `save_weights`. -/
inductive FileContent
  | text : List ℚ → FileContent
  | weights : FileContent
deriving DecidableEq

/-- Hyperparameters and external collaborators of one `qGAN` run.  `DS` is the
opaque state of the Keras discriminator.  The random draws of the source
(`np.random.randint`, `randn`, `np.random.uniform`) are modelled as explicit
streams, one per call site and epoch, and `lrS` is the decimal rendering of
the learning rate as interpolated into filenames. -/
structure Cfg (DS : Type) where
  layers : ℕ
  nqubits : ℕ
  latent_dim : ℕ
  training_samples : ℕ
  batch_samples : ℕ
  n_epochs : ℕ
  lrS : String
  reference : ℕ → List ℚ
  expect : List ℚ → ℕ → ℚ
  log : ℚ → ℚ
  trainOnBatch : DS → List (List ℚ) → List ℚ → DS × ℚ
  predict : DS → List (List ℚ) → List ℚ
  realIdx : ℕ → ℕ → ℕ
  latentD : ℕ → ℕ → ℕ → ℚ
  latentG : ℕ → ℕ → ℕ → ℚ
  upd : ℕ → ℕ → ℚ → ℚ
  draw : ℕ → ℚ
  d0 : DS

/-- Hyperparameter tag interpolated into every checkpoint filename:
`{nqubits}_{latent_dim}_{layers}_{training_samples}_{batch_samples}_{lr}`. -/
def hyperTag {DS : Type} (c : Cfg DS) : String :=
  toString c.nqubits ++ "_" ++ toString c.latent_dim ++ "_" ++ toString c.layers ++ "_" ++
    toString c.training_samples ++ "_" ++ toString c.batch_samples ++ "_" ++ c.lrS

/-- Path of the parameter-vector checkpoint file (qgan.py line 199). -/
def paramsPath {DS : Type} (c : Cfg DS) : String := "PARAMS_3Dgaussian_" ++ hyperTag c

/-- Path of the discriminator-loss history file (qgan.py line 200). -/
def dlossPath {DS : Type} (c : Cfg DS) : String := "dloss_3Dgaussian_" ++ hyperTag c

/-- Path of the generator-loss history file (qgan.py line 201). -/
def glossPath {DS : Type} (c : Cfg DS) : String := "gloss_3Dgaussian_" ++ hyperTag c

/-- Path of the binary discriminator-weights file (qgan.py line 203). -/
def weightsPath {DS : Type} (c : Cfg DS) : String :=
  "discriminator_3Dgaussian_" ++ hyperTag c ++ ".h5"

/-- Mutable state of `qGAN.train` across epochs: the discriminator state, the
trainable parameter vector `initial_params`, the two loss histories, and the
log of checkpoint writes performed so far. -/
structure TrainState (DS : Type) where
  dstate : DS
  params : List ℚ
  dLoss : List ℚ
  gLoss : List ℚ
  files : List (String × FileContent)

/-- Real batch with labels as drawn in epoch `e` (qgan.py line 186). -/
def epochReal {DS : Type} (c : Cfg DS) (e : ℕ) : List (List ℚ) × List ℚ :=
  generate_real_samples (c.batch_samples / 2) c.reference c.training_samples (c.realIdx e)

/-- Fake batch with labels generated in epoch `e` (qgan.py line 188). -/
def epochFake {DS : Type} (c : Cfg DS) (e : ℕ) (st : TrainState DS) :
    List (List ℚ) × List ℚ :=
  generate_fake_samples c.expect c.layers c.nqubits c.latent_dim st.params
    (c.latentD e) (c.batch_samples / 2)

/-- First discriminator update of epoch `e`, on the real batch (line 190). -/
def epochD1 {DS : Type} (c : Cfg DS) (e : ℕ) (st : TrainState DS) : DS × ℚ :=
  c.trainOnBatch st.dstate (epochReal c e).1 (epochReal c e).2

/-- Second discriminator update of epoch `e`, on the fake batch (line 191). -/
def epochD2 {DS : Type} (c : Cfg DS) (e : ℕ) (st : TrainState DS) : DS × ℚ :=
  c.trainOnBatch (epochD1 c e st).1 (epochFake c e st).1 (epochFake c e st).2

/-- Generator loss of epoch `e` (line 195): `define_cost_gan` evaluated with
the updated discriminator on a fresh fake batch of the full `batch_samples`. -/
def epochGLoss {DS : Type} (c : Cfg DS) (e : ℕ) (st : TrainState DS) : ℚ :=
  define_cost_gan c.expect c.log (c.predict (epochD2 c e st).1) c.layers c.nqubits
    c.latent_dim st.params (c.latentG e) c.batch_samples

/-- Elementwise in-place parameter update performed by
`optimizer.apply_gradients` on the fixed-shape variable (line 197). -/
def applyGradients (upd : ℕ → ℚ → ℚ) (ps : List ℚ) : List ℚ := ps.mapIdx upd

/-- One epoch of `qGAN.train` (qgan.py lines 184-203): real batch, fake batch,
two discriminator updates, mean of the two losses appended to the
discriminator history, one generator step, generator loss appended, then the
four checkpoint files written (in this order) at their fixed paths. -/
def epoch {DS : Type} (c : Cfg DS) (e : ℕ) (st : TrainState DS) : TrainState DS :=
  let params' := applyGradients (c.upd e) st.params
  let dLoss' := st.dLoss ++ [((epochD1 c e st).2 + (epochD2 c e st).2) / 2]
  let gLoss' := st.gLoss ++ [epochGLoss c e st]
  { dstate := (epochD2 c e st).1
    params := params'
    dLoss := dLoss'
    gLoss := gLoss'
    files := st.files ++
      [(paramsPath c, FileContent.text params'),
       (dlossPath c, FileContent.text dLoss'),
       (glossPath c, FileContent.text gLoss'),
       (weightsPath c, FileContent.weights)] }

/-- Parameter vector freshly created by `qGAN.train` (line 179), modelling
`np.random.uniform(-0.15, 0.15, 10*layers*nqubits + 2*nqubits)` with the
abstract sampler `draw`. -/
def mkInitialParams {DS : Type} (c : Cfg DS) : List ℚ :=
  (List.range (10 * c.layers * c.nqubits + 2 * c.nqubits)).map c.draw

/-- State of `qGAN.train` before the first epoch. -/
def initTrain {DS : Type} (c : Cfg DS) : TrainState DS :=
  { dstate := c.d0, params := mkInitialParams c, dLoss := [], gLoss := [], files := [] }

/-- First `k` epochs of `qGAN.train`. -/
def trainN {DS : Type} (c : Cfg DS) (k : ℕ) : TrainState DS :=
  (List.range k).foldl (fun st e => epoch c e st) (initTrain c)

/-- Embedding of the full `qGAN.train` loop over all `n_epochs` epochs. -/
def train {DS : Type} (c : Cfg DS) : TrainState DS := trainN c c.n_epochs

/-- Latent matrix whose column 0 holds the value 5 and all other columns 7. -/
def c4x1 : ℕ → ℕ → ℚ := fun _ s => if s = 0 then 5 else 7

/-- Latent matrix whose column 0 holds the value 9 and all other columns 7. -/
def c4x2 : ℕ → ℕ → ℚ := fun _ s => if s = 0 then 9 else 7

/-- Concrete configuration used by witness instantiations. -/
def cW : Cfg Unit :=
  { layers := 1, nqubits := 1, latent_dim := 1, training_samples := 1, batch_samples := 2,
    n_epochs := 1, lrS := "0.5", reference := fun _ => [0], expect := fun _ _ => 0,
    log := fun _ => 0, trainOnBatch := fun _ _ _ => ((), 0),
    predict := fun _ xs => xs.map (fun _ => 1/2), realIdx := fun _ _ => 0,
    latentD := fun _ _ _ => 0, latentG := fun _ _ _ => 0, upd := fun _ _ v => v,
    draw := fun _ => 0, d0 := () }

/-- Concrete training state used by witness instantiations. -/
def stW : TrainState Unit :=
  { dstate := (), params := [], dLoss := [], gLoss := [], files := [] }

end Qgan

namespace IcarusQ

/-- Hardware static parameter `nchannels` of class `IcarusQ` (qpu.py line 32). -/
def nchannels : ℕ := 4

/-- Hardware static parameter `sample_size` of class `IcarusQ` (qpu.py line 33). -/
def sample_size : ℕ := 32000

/-- Numpy row assignment `waveform[i] = row` into the preallocated
`(nchannels, sample_size)` zero matrix: an equal-length source is copied, a
length-one source broadcasts across the row, and any other length is a shape
error. -/
def assignRow (r : List ℚ) : Option (List ℚ) :=
  if r.length = sample_size then some r
  else if r.length = 1 then some (List.replicate sample_size (r.getD 0 0))
  else none

/-- Embedding of `IcarusQ.download` (qpu.py lines 84-99): `fetch i` is the
sequence of values parsed by `np.genfromtxt` from channel `i`'s
comma-separated text; the final parsed entry is discarded (the `[:-1]` slice)
before the result is stored as row `i` of the waveform matrix. -/
def download (fetch : ℕ → List ℚ) : Option (List (List ℚ)) :=
  (List.range nchannels).foldl
    (fun acc i => acc.bind
      (fun rows => (assignRow (fetch i).dropLast).map (fun r => rows ++ [r])))
    (some [])

end IcarusQ

namespace Qgan

theorem stepOk_congr {ld k : ℕ} {f g : SPState → SPState} (h : StepOk ld k f)
    (hfg : ∀ s, f s = g s) : StepOk ld k g := by
  intro s
  have := h s
  rwa [hfg s] at this

theorem stepOk_count_congr {ld k k' : ℕ} {f : SPState → SPState} (h : StepOk ld k f)
    (hk : k = k') : StepOk ld k' f := hk ▸ h

theorem stepOk_emit (params : List ℚ) (x : ℕ → ℕ → ℚ) (ld : ℕ) :
    StepOk ld 1 (emit params x) := by
  intro s
  refine ⟨rfl, by simp [emit], by simp [emit, List.range_succ], fun h => h, ?_⟩
  intro h e he
  simp only [emit, List.mem_append, List.mem_singleton] at he
  rcases he with he | he
  · exact Or.inl he
  · exact Or.inr (by simp [he, h])

theorem stepOk_adv (ld : ℕ) : StepOk ld 0 (adv ld) := by
  intro s
  refine ⟨by simp [adv], by simp [adv], by simp [adv], ?_, ?_⟩
  · intro h
    exact Nat.mod_lt _ (by omega)
  · intro _ e he
    exact Or.inl he

theorem stepOk_seti (ld k : ℕ) : StepOk ld 0 (seti k) := by
  intro s
  exact ⟨by simp [seti], by simp [seti], by simp [seti], fun h => h, fun _ e he => Or.inl he⟩

theorem stepOk_id (ld : ℕ) : StepOk ld 0 (fun s => s) := by
  intro s
  exact ⟨by simp, by simp, by simp, fun h => h, fun _ e he => Or.inl he⟩

theorem range_map_split (a k₁ k₂ : ℕ) :
    (List.range (k₁ + k₂)).map (fun j => a + 2 * j) =
      (List.range k₁).map (fun j => a + 2 * j) ++
        (List.range k₂).map (fun j => a + 2 * k₁ + 2 * j) := by
  rw [List.range_add, List.map_append, List.map_map]
  congr 1
  apply List.map_congr_left
  intro b _
  simp only [Function.comp_apply]
  ring

theorem stepOk_comp {ld k₁ k₂ : ℕ} {f g : SPState → SPState}
    (h₁ : StepOk ld k₁ f) (h₂ : StepOk ld k₂ g) :
    StepOk ld (k₁ + k₂) (fun s => g (f s)) := by
  intro s
  obtain ⟨i1, p1, t1, n1, m1⟩ := h₁ s
  obtain ⟨i2, p2, t2, n2, m2⟩ := h₂ (f s)
  refine ⟨by rw [i2, i1]; ring, by rw [p2, p1]; ring, ?_, fun h => n2 (n1 h), ?_⟩
  · rw [t2, t1, i1, range_map_split, List.append_assoc]
  · intro h e he
    rcases m2 (n1 h) e he with h' | h'
    · exact m1 h e h'
    · exact Or.inr h'

theorem stepOk_iterate {ld k : ℕ} {f : SPState → SPState} (h : StepOk ld k f) :
    ∀ m : ℕ, StepOk ld (m * k) (f^[m]) := by
  intro m
  induction m with
  | zero => exact stepOk_count_congr (stepOk_congr (stepOk_id ld) (fun s => by simp)) (by simp)
  | succ m ih =>
      have hc := stepOk_comp h ih
      refine stepOk_count_congr (stepOk_congr hc (fun s => ?_)) (by ring)
      rw [Function.iterate_succ_apply]

theorem stepOk_foldl {ld k : ℕ} {α : Type} {step : α → SPState → SPState}
    (h : ∀ a : α, StepOk ld k (step a)) :
    ∀ l : List α, StepOk ld (l.length * k) (fun s => l.foldl (fun t a => step a t) s) := by
  intro l
  induction l with
  | nil => exact stepOk_count_congr (stepOk_congr (stepOk_id ld) (fun s => by simp)) (by simp)
  | cons a l ih =>
      have hc := stepOk_comp (h a) ih
      refine stepOk_count_congr (stepOk_congr hc (fun s => ?_)) ?_
      · simp [List.foldl_cons]
      · simp
        ring

theorem stepOk_qubitStep (params : List ℚ) (x : ℕ → ℕ → ℚ) (ld : ℕ) :
    StepOk ld 4 (qubitStep params x ld) := by
  have h := stepOk_comp (stepOk_comp (stepOk_comp (stepOk_comp (stepOk_comp
    (stepOk_comp (stepOk_emit params x ld) (stepOk_adv ld)) (stepOk_emit params x ld))
    (stepOk_emit params x ld)) (stepOk_adv ld)) (stepOk_emit params x ld)) (stepOk_adv ld)
  exact stepOk_count_congr (stepOk_congr h (fun s => rfl)) (by norm_num)

theorem stepOk_ringStep (params : List ℚ) (x : ℕ → ℕ → ℚ) (ld : ℕ) (k : ℕ) :
    StepOk ld 1 (ringStep params x ld k) := by
  have h := stepOk_comp (stepOk_comp (stepOk_seti ld k) (stepOk_emit params x ld)) (stepOk_adv ld)
  exact stepOk_count_congr (stepOk_congr h (fun s => rfl)) (by norm_num)

theorem stepOk_layerStep (params : List ℚ) (x : ℕ → ℕ → ℚ) (ld nqubits : ℕ) :
    StepOk ld (4 * nqubits + (nqubits - 1) + 1) (layerStep params x ld nqubits) := by
  have hq := stepOk_iterate (stepOk_qubitStep params x ld) nqubits
  have hr := stepOk_foldl (stepOk_ringStep params x ld) (List.range (nqubits - 1))
  have h := stepOk_comp (stepOk_comp (stepOk_comp hq hr) (stepOk_emit params x ld))
    (stepOk_adv ld)
  refine stepOk_count_congr (stepOk_congr h (fun s => rfl)) ?_
  simp [List.length_range]
  ring

theorem stepOk_set_params_run (layers nqubits ld : ℕ) (params : List ℚ) (x : ℕ → ℕ → ℚ) :
    StepOk ld (layers * (4 * nqubits + (nqubits - 1) + 1) + nqubits)
      (set_params_run layers nqubits ld params x) := by
  have hl := stepOk_iterate (stepOk_layerStep params x ld nqubits) layers
  have ht := stepOk_iterate (stepOk_comp (stepOk_emit params x ld) (stepOk_adv ld)) nqubits
  have h := stepOk_comp hl ht
  refine stepOk_count_congr (stepOk_congr h (fun s => rfl)) (by ring)

/-- Characterisation of a full `set_params` traversal: with `nqubits ≥ 1` it
emits `5*layers*nqubits + nqubits` angles, the parameter index ends at
`10*layers*nqubits + 2*nqubits`, the `k`-th emission reads the parameter pair
`(2*k, 2*k+1)`, and every noise index read stays below `latent_dim`. -/
theorem set_params_spec (layers nqubits ld : ℕ) (params : List ℚ) (x : ℕ → ℕ → ℚ)
    (i : ℕ) (hn : 1 ≤ nqubits) :
    (set_params layers nqubits ld params x i).index =
        10 * layers * nqubits + 2 * nqubits ∧
    (set_params layers nqubits ld params x i).p.length =
        5 * layers * nqubits + nqubits ∧
    (set_params layers nqubits ld params x i).trace.map Prod.fst =
        (List.range (5 * layers * nqubits + nqubits)).map (fun k => 2 * k) ∧
    (1 ≤ ld → ∀ e ∈ (set_params layers nqubits ld params x i).trace, e.2 < ld) := by
  have hcount : layers * (4 * nqubits + (nqubits - 1) + 1) + nqubits =
      5 * layers * nqubits + nqubits := by
    have h5 : 4 * nqubits + (nqubits - 1) + 1 = 5 * nqubits := by omega
    rw [h5]
    ring
  have h := stepOk_count_congr (stepOk_set_params_run layers nqubits ld params x) hcount
  obtain ⟨hi, hp, ht, _, hm⟩ := h ⟨[], 0, 0, i, []⟩
  refine ⟨?_, ?_, ?_, ?_⟩
  · rw [set_params, hi]
    ring
  · rw [set_params, hp]
    simp
  · rw [set_params, ht]
    simp
  · intro hld e he
    simp only [set_params] at he
    rcases hm hld e he with h' | h'
    · simp at h'
    · exact h'

theorem layerGates_length (nqubits : ℕ) :
    (layerGates nqubits).length = 4 * nqubits + (nqubits - 1) + 1 := by
  have hc : (List.length ∘ fun q : ℕ => [Gate.ry q 0, Gate.rz q 0, Gate.ry q 0, Gate.rz q 0]) =
      fun _ : ℕ => 4 := rfl
  simp [layerGates, List.length_flatMap, hc, List.map_const', List.sum_replicate, smul_eq_mul]
  omega

theorem buildCircuit_length (layers nqubits : ℕ) (hn : 1 ≤ nqubits) :
    (buildCircuit layers nqubits).length = 5 * layers * nqubits + nqubits := by
  have h5 : 4 * nqubits + (nqubits - 1) + 1 = 5 * nqubits := by omega
  have hc2 : (List.length ∘ fun _ : ℕ => layerGates nqubits) =
      fun _ : ℕ => 5 * nqubits := by
    funext a
    simp [layerGates_length, h5]
  simp [buildCircuit, List.length_flatMap, hc2, List.map_const', List.sum_replicate,
    smul_eq_mul]
  ring

theorem proj_emit (params : List ℚ) (x : ℕ → ℕ → ℚ) (s : SPState) :
    proj (emit params x s) = recN (proj s) := by
  simp [proj, emit, recN]

theorem proj_adv (ld : ℕ) (s : SPState) : proj (adv ld s) = advN ld (proj s) := rfl

theorem proj_seti (k : ℕ) (s : SPState) : proj (seti k s) = proj s := rfl

theorem proj_iterate {f : SPState → SPState} {g : ℕ × List ℕ → ℕ × List ℕ}
    (h : ∀ s, proj (f s) = g (proj s)) :
    ∀ (m : ℕ) (s : SPState), proj (f^[m] s) = g^[m] (proj s) := by
  intro m
  induction m with
  | zero => intro s; simp
  | succ m ih =>
      intro s
      rw [Function.iterate_succ_apply, Function.iterate_succ_apply, ih (f s), h s]

theorem proj_qubitStep (params : List ℚ) (x : ℕ → ℕ → ℚ) (ld : ℕ) (s : SPState) :
    proj (qubitStep params x ld s) = qubitNoiseAmended ld (proj s) := by
  simp [qubitStep, qubitNoiseAmended, proj_emit, proj_adv]

theorem proj_ringStep (params : List ℚ) (x : ℕ → ℕ → ℚ) (ld k : ℕ) (s : SPState) :
    proj (ringStep params x ld k s) = ringNoise ld (proj s) := by
  simp [ringStep, ringNoise, proj_emit, proj_adv, proj_seti]

theorem proj_ringFold (params : List ℚ) (x : ℕ → ℕ → ℚ) (ld : ℕ) :
    ∀ (l : List ℕ) (s : SPState),
      proj (l.foldl (fun t k => ringStep params x ld k t) s) =
        (ringNoise ld)^[l.length] (proj s) := by
  intro l
  induction l with
  | nil => intro s; simp
  | cons a l ih =>
      intro s
      simp only [List.foldl_cons, List.length_cons]
      rw [ih (ringStep params x ld a s), Function.iterate_succ_apply, proj_ringStep]

theorem proj_layerStep (params : List ℚ) (x : ℕ → ℕ → ℚ) (ld nqubits : ℕ) (s : SPState) :
    proj (layerStep params x ld nqubits s) = layerNoiseAmended ld nqubits (proj s) := by
  simp only [layerStep, layerNoiseAmended, ringNoise]
  rw [proj_adv, proj_emit, proj_ringFold, List.length_range,
    proj_iterate (proj_qubitStep params x ld) nqubits]

theorem trainN_succ {DS : Type} (c : Cfg DS) (k : ℕ) :
    trainN c (k + 1) = epoch c k (trainN c k) := by
  simp [trainN, List.range_succ]

theorem trainN_counts {DS : Type} (c : Cfg DS) :
    ∀ k : ℕ, (trainN c k).dLoss.length = k ∧ (trainN c k).gLoss.length = k ∧
      (trainN c k).files.length = 4 * k := by
  intro k
  induction k with
  | zero => refine ⟨rfl, rfl, rfl⟩
  | succ k ih =>
      obtain ⟨h1, h2, h3⟩ := ih
      rw [trainN_succ]
      refine ⟨?_, ?_, ?_⟩ <;> simp [epoch, h1, h2, h3] <;> omega

theorem trainN_params_length {DS : Type} (c : Cfg DS) :
    ∀ k : ℕ, (trainN c k).params.length = 10 * c.layers * c.nqubits + 2 * c.nqubits := by
  intro k
  induction k with
  | zero => simp [trainN, initTrain, mkInitialParams]
  | succ k ih => rw [trainN_succ]; simp [epoch, applyGradients, List.length_mapIdx, ih]

theorem zipWith_replicate_ones (f : ℚ → ℚ → ℚ) (a : ℚ) :
    ∀ (l : List ℚ) (n : ℕ), l.length = n →
      List.zipWith f (List.replicate n a) l = l.map (f a) := by
  intro l
  induction l with
  | nil =>
      intro n hn
      simp
  | cons b l ih =>
      intro n hn
      cases n with
      | zero => simp at hn
      | succ n =>
          simp only [List.length_cons, Nat.succ.injEq] at hn
          simp [List.replicate_succ, ih n hn]

/-- C1: for `layers ≥ 1`, `nqubits ≥ 1`, `latent_dim ≥ 1` and a parameter
vector of length exactly `10*layers*nqubits + 2*nqubits`, the `set_params`
mapper consumes the vector exactly: the `k`-th emitted angle reads precisely
the two consecutive entries `2*k` and `2*k+1` (scale and bias), the running
parameter index ends equal to the vector length (no leftover entries, and
every read stays strictly inside the vector), and every noise index read lies
in `[0, latent_dim)`. -/
theorem set_params_consumes_vector_exactly (layers nqubits ld : ℕ) (params : List ℚ)
    (x : ℕ → ℕ → ℚ) (i : ℕ) (hl : 1 ≤ layers) (hn : 1 ≤ nqubits) (hld : 1 ≤ ld)
    (hlen : params.length = 10 * layers * nqubits + 2 * nqubits) :
    (set_params layers nqubits ld params x i).index = params.length ∧
    (set_params layers nqubits ld params x i).trace.map Prod.fst =
      (List.range (5 * layers * nqubits + nqubits)).map (fun k => 2 * k) ∧
    (∀ e ∈ (set_params layers nqubits ld params x i).trace, e.1 + 1 < params.length) ∧
    (∀ e ∈ (set_params layers nqubits ld params x i).trace, e.2 < ld) := by
  obtain ⟨hi, -, ht, hm⟩ := set_params_spec layers nqubits ld params x i hn
  refine ⟨by rw [hi, hlen], ht, ?_, hm hld⟩
  intro e he
  have hmem : e.1 ∈ (set_params layers nqubits ld params x i).trace.map Prod.fst :=
    List.mem_map_of_mem Prod.fst he
  rw [ht] at hmem
  obtain ⟨k, hk, hek⟩ := List.mem_map.mp hmem
  rw [List.mem_range] at hk
  have e1 : 10 * layers * nqubits = 2 * (5 * layers * nqubits) := by ring
  rw [hlen, e1]
  omega

/-- Witness for C1 at `layers = nqubits = latent_dim = 1` and the all-zero
parameter vector of length 12. -/
theorem set_params_consumes_vector_exactly_witness :
    (List.replicate 12 (0:ℚ)).length = 10 * 1 * 1 + 2 * 1 ∧
    (set_params 1 1 1 (List.replicate 12 0) (fun _ _ => 0) 0).index =
      (List.replicate 12 (0:ℚ)).length :=
  ⟨by decide, (set_params_consumes_vector_exactly 1 1 1 (List.replicate 12 0)
    (fun _ _ => 0) 0 (by decide) (by decide) (by decide) (by decide)).1⟩

/-- C2: the number of angles emitted by `set_params` equals the number of
parameterised gate slots of the circuit template built by `execute`, both
equal to `5*layers*nqubits + nqubits` (per layer four single-qubit rotation
slots per qubit plus `nqubits` two-qubit ring slots, then one trailing slot
per qubit). -/
theorem angle_count_matches_circuit_slots (layers nqubits ld : ℕ) (params : List ℚ)
    (x : ℕ → ℕ → ℚ) (i : ℕ) (hl : 1 ≤ layers) (hn : 1 ≤ nqubits) :
    (set_params layers nqubits ld params x i).p.length =
      (buildCircuit layers nqubits).length ∧
    (buildCircuit layers nqubits).length = 5 * layers * nqubits + nqubits := by
  obtain ⟨-, hp, -, -⟩ := set_params_spec layers nqubits ld params x i hn
  have hb := buildCircuit_length layers nqubits hn
  exact ⟨by rw [hp, hb], hb⟩

/-- Witness for C2 at `layers = nqubits = latent_dim = 1`. -/
theorem angle_count_matches_circuit_slots_witness :
    (1:ℕ) ≤ 1 ∧
    (set_params 1 1 1 (List.replicate 12 (1:ℚ)) (fun _ _ => 0) 0).p.length =
      (buildCircuit 1 1).length :=
  ⟨by decide, (angle_count_matches_circuit_slots 1 1 1 (List.replicate 12 1)
    (fun _ _ => 0) 0 (by decide) (by decide)).1⟩

/-- C3 (counterexample): with `layers = 1`, `nqubits = 1`, `latent_dim = 4`,
the source reads the noise indices `[0, 1, 1, 2, 3, 0]`, whereas the schedule
claimed (advance after the 1st, 2nd and 3rd per-qubit angle but not after the
4th) would read `[0, 1, 2, 3, 3, 0]`. -/
theorem noise_schedule_claim_counterexample :
    (set_params 1 1 4 (List.replicate 12 0) (fun _ _ => 0) 0).trace.map Prod.snd ≠
      noiseTraceClaim 1 1 4 := by decide

/-- C3 (amended): within each layer, for each qubit the four emitted angles
advance the noise index after the 1st, the 3rd and the 4th angle but not
after the 2nd; then each of the `nqubits` ring angles advances the noise
index; after all layers, one trailing angle per qubit is emitted, each
advancing the noise index. -/
theorem noise_schedule_amended (layers nqubits ld : ℕ) (params : List ℚ)
    (x : ℕ → ℕ → ℚ) (i : ℕ) :
    (set_params layers nqubits ld params x i).trace.map Prod.snd =
      noiseTraceAmended layers nqubits ld := by
  have h2 : ∀ s, proj ((fun t => adv ld (emit params x t)) s) = ringNoise ld (proj s) := by
    intro s
    simp [ringNoise, proj_emit, proj_adv]
  have hmain : proj (set_params layers nqubits ld params x i) =
      (ringNoise ld)^[nqubits] ((layerNoiseAmended ld nqubits)^[layers] (0, [])) := by
    rw [set_params, set_params_run, proj_iterate h2 nqubits,
      proj_iterate (proj_layerStep params x ld nqubits) layers]
    rfl
  have hsnd := congrArg Prod.snd hmain
  simpa [proj, noiseTraceAmended] using hsnd

/-- C4 (code bug): two latent matrices that agree on column 1 (the sample
index passed in) but differ on column 0 produce different angle arrays for
sample index 1, because the ring loop of `set_params` overwrites the Python
variable `i` that held the sample index.  This contradicts the claim that the
angle array for sample `i` depends only on the parameter vector and on the
latent column `i`. -/
theorem set_params_cross_sample_dependence :
    (∀ ν : ℕ, c4x1 ν 1 = c4x2 ν 1) ∧
    (set_params 1 2 1 (List.replicate 24 1) c4x1 1).p ≠
      (set_params 1 2 1 (List.replicate 24 1) c4x2 1).p := by
  refine ⟨fun _ => rfl, fun h => ?_⟩
  have h8 := congrArg (fun l : List ℚ => l.getD 8 0) h
  have hA : (set_params 1 2 1 (List.replicate 24 1) c4x1 1).p.getD 8 0 =
      1 * 5 + 1 := rfl
  have hB : (set_params 1 2 1 (List.replicate 24 1) c4x2 1).p.getD 8 0 =
      1 * 9 + 1 := rfl
  simp only [hA, hB] at h8
  norm_num at h8

/-- C5: the fake batch is labelled all-zeros at generation time, but the label
tensor passed to the binary cross-entropy inside `define_cost_gan` is the
all-ones vector: the loss is the mean-reduced binary cross-entropy between
the all-ones target and the discriminator output on the freshly generated
fake batch, and the training loop evaluates it on a batch of the full
`batch_samples` (not `half_samples`). -/
theorem generator_loss_inverted_labels {DS : Type} (c : Cfg DS) (e : ℕ)
    (st : TrainState DS) (D : List (List ℚ) → List ℚ) (samples : ℕ)
    (hD : (D (generate_fake_samples c.expect c.layers c.nqubits c.latent_dim
        st.params (c.latentG e) samples).1).length = samples) :
    (generate_fake_samples c.expect c.layers c.nqubits c.latent_dim st.params
        (c.latentG e) samples).2 = List.replicate samples 0 ∧
    define_cost_gan c.expect c.log D c.layers c.nqubits c.latent_dim st.params
        (c.latentG e) samples =
      mean ((D (generate_fake_samples c.expect c.layers c.nqubits c.latent_dim
        st.params (c.latentG e) samples).1).map (binary_crossentropy c.log 1)) ∧
    (epoch c e st).gLoss = st.gLoss ++ [epochGLoss c e st] ∧
    epochGLoss c e st =
      define_cost_gan c.expect c.log (c.predict (epochD2 c e st).1) c.layers
        c.nqubits c.latent_dim st.params (c.latentG e) c.batch_samples := by
  refine ⟨rfl, ?_, rfl, rfl⟩
  simp only [define_cost_gan]
  rw [zipWith_replicate_ones (binary_crossentropy c.log) 1 _ samples hD]

/-- Witness for C5 with the constant discriminator output `[1/2]` on a batch
of one sample. -/
theorem generator_loss_inverted_labels_witness :
    ((fun _ : List (List ℚ) => [(1:ℚ)/2]) (generate_fake_samples cW.expect cW.layers
        cW.nqubits cW.latent_dim stW.params (cW.latentG 0) 1).1).length = 1 ∧
    (generate_fake_samples cW.expect cW.layers cW.nqubits cW.latent_dim stW.params
        (cW.latentG 0) 1).2 = List.replicate 1 0 :=
  ⟨rfl, (generator_loss_inverted_labels cW 0 stW (fun _ => [1/2]) 1 rfl).1⟩

/-- C6: each epoch draws `half_samples = batch_samples / 2` rows of the
reference distribution through the random index stream with labels all ones,
generates `half_samples` fake samples labelled all zeros, updates the
discriminator first on the real batch and then on the fake batch as two
separate `train_on_batch` steps, and appends the arithmetic mean of the two
resulting losses to the discriminator-loss history. -/
theorem epoch_discriminator_update {DS : Type} (c : Cfg DS) (e : ℕ)
    (st : TrainState DS) (hidx : ∀ a j, c.realIdx a j < c.training_samples) :
    (epochReal c e).1.length = c.batch_samples / 2 ∧
    (∀ row ∈ (epochReal c e).1, ∃ s', s' < c.training_samples ∧ row = c.reference s') ∧
    (epochReal c e).2 = List.replicate (c.batch_samples / 2) 1 ∧
    (epochFake c e st).1.length = c.batch_samples / 2 ∧
    (epochFake c e st).2 = List.replicate (c.batch_samples / 2) 0 ∧
    epochD1 c e st = c.trainOnBatch st.dstate (epochReal c e).1 (epochReal c e).2 ∧
    epochD2 c e st =
      c.trainOnBatch (epochD1 c e st).1 (epochFake c e st).1 (epochFake c e st).2 ∧
    (epoch c e st).dstate = (epochD2 c e st).1 ∧
    (epoch c e st).dLoss =
      st.dLoss ++ [((epochD1 c e st).2 + (epochD2 c e st).2) / 2] := by
  refine ⟨?_, ?_, rfl, ?_, rfl, rfl, rfl, rfl, rfl⟩
  · simp [epochReal, generate_real_samples]
  · intro row hrow
    simp only [epochReal, generate_real_samples] at hrow
    obtain ⟨j, -, rfl⟩ := List.mem_map.mp hrow
    exact ⟨c.realIdx e j, hidx e j, rfl⟩
  · simp [epochFake, generate_fake_samples]

/-- Witness for C6 on the concrete configuration `cW`. -/
theorem epoch_discriminator_update_witness :
    (∀ a j : ℕ, cW.realIdx a j < cW.training_samples) ∧
    (epochReal cW 0).2 = List.replicate (cW.batch_samples / 2) 1 :=
  ⟨fun _ _ => by norm_num [cW],
    (epoch_discriminator_update cW 0 stW (fun _ _ => by norm_num [cW])).2.2.1⟩

/-- C7: at the end of every epoch the loop appends one entry to each loss
history and writes exactly four checkpoint artifacts at epoch-independent
paths (so later epochs overwrite earlier ones): three plain-text numeric
files holding the current parameter vector and the two loss histories, plus
one binary weights file, every filename embedding the six hyperparameters
`nqubits, latent_dim, layers, training_samples, batch_samples, lr` in that
order. -/
theorem epoch_checkpoint_writes {DS : Type} (c : Cfg DS) :
    (∀ k : ℕ, trainN c (k + 1) = epoch c k (trainN c k)) ∧
    (∀ (e : ℕ) (st : TrainState DS),
      (epoch c e st).dLoss.length = st.dLoss.length + 1 ∧
      (epoch c e st).gLoss.length = st.gLoss.length + 1 ∧
      (epoch c e st).files = st.files ++
        [(paramsPath c, FileContent.text (epoch c e st).params),
         (dlossPath c, FileContent.text (epoch c e st).dLoss),
         (glossPath c, FileContent.text (epoch c e st).gLoss),
         (weightsPath c, FileContent.weights)]) ∧
    (train c).dLoss.length = c.n_epochs ∧
    (train c).gLoss.length = c.n_epochs ∧
    (train c).files.length = 4 * c.n_epochs ∧
    paramsPath c = "PARAMS_3Dgaussian_" ++ hyperTag c ∧
    dlossPath c = "dloss_3Dgaussian_" ++ hyperTag c ∧
    glossPath c = "gloss_3Dgaussian_" ++ hyperTag c ∧
    weightsPath c = "discriminator_3Dgaussian_" ++ hyperTag c ++ ".h5" ∧
    hyperTag c = toString c.nqubits ++ "_" ++ toString c.latent_dim ++ "_" ++
      toString c.layers ++ "_" ++ toString c.training_samples ++ "_" ++
      toString c.batch_samples ++ "_" ++ c.lrS := by
  refine ⟨trainN_succ c, ?_, (trainN_counts c c.n_epochs).1,
    (trainN_counts c c.n_epochs).2.1, (trainN_counts c c.n_epochs).2.2,
    rfl, rfl, rfl, rfl, rfl⟩
  intro e st
  exact ⟨by simp [epoch], by simp [epoch], rfl⟩

/-- C8 (counterexample): with `layers = nqubits = latent_dim = 1` and a
parameter vector of length 5 (the required length is 12), no setup check
stops the mapper: all six emissions of the first epoch's `set_params` run,
and one of them reads past the end of the vector.  The failure therefore
occurs inside the first epoch's parameter mapping, not at setup. -/
theorem fail_fast_counterexample :
    (set_params 1 1 1 (List.replicate 5 0) (fun _ _ => 0) 0).trace.length = 6 ∧
    ∃ e ∈ (set_params 1 1 1 (List.replicate 5 0) (fun _ _ => 0) 0).trace,
      (List.replicate 5 (0:ℚ)).length ≤ e.1 + 1 := by decide

/-- C8 (amended): a parameter vector shorter than the required
`10*layers*nqubits + 2*nqubits` entries is not detected before training;
`set_params` runs during the first epoch and performs a read past the end of
the vector. -/
theorem mismatch_read_past_end (layers nqubits ld : ℕ) (params : List ℚ)
    (x : ℕ → ℕ → ℚ) (i : ℕ) (hl : 1 ≤ layers) (hn : 1 ≤ nqubits) (hld : 1 ≤ ld)
    (hlen : params.length < 10 * layers * nqubits + 2 * nqubits) :
    ∃ e ∈ (set_params layers nqubits ld params x i).trace,
      params.length ≤ e.1 + 1 := by
  obtain ⟨-, -, ht, -⟩ := set_params_spec layers nqubits ld params x i hn
  have hcnt : 0 < 5 * layers * nqubits + nqubits :=
    Nat.lt_of_lt_of_le hn (Nat.le_add_left _ _)
  have h2 : 2 * (5 * layers * nqubits + nqubits) =
      10 * layers * nqubits + 2 * nqubits := by ring
  rw [← h2] at hlen
  have hmem : 2 * (5 * layers * nqubits + nqubits - 1) ∈
      (set_params layers nqubits ld params x i).trace.map Prod.fst := by
    rw [ht]
    exact List.mem_map.mpr ⟨5 * layers * nqubits + nqubits - 1,
      List.mem_range.mpr (by omega), rfl⟩
  obtain ⟨e, he, hfst⟩ := List.mem_map.mp hmem
  exact ⟨e, he, by omega⟩

/-- Witness for the amended C8 with a length-5 vector where 12 entries are
required. -/
theorem mismatch_read_past_end_witness :
    (List.replicate 5 (0:ℚ)).length < 10 * 1 * 1 + 2 * 1 ∧
    ∃ e ∈ (set_params 1 1 1 (List.replicate 5 0) (fun _ _ => 1) 0).trace,
      (List.replicate 5 (0:ℚ)).length ≤ e.1 + 1 :=
  ⟨by decide, mismatch_read_past_end 1 1 1 (List.replicate 5 0) (fun _ _ => 1) 0
    (by decide) (by decide) (by decide) (by decide)⟩

/-- C9: `train` itself creates the parameter vector as a fresh sequence of
`10*layers*nqubits + 2*nqubits` draws of the uniform sampler on
`[-0.15, 0.15]`; the length invariant required by `set_params` holds by
construction at every epoch, and the embedded entry points take no
parameter-vector argument. -/
theorem train_constructs_params {DS : Type} (c : Cfg DS)
    (hdraw : ∀ k, -(3/20 : ℚ) ≤ c.draw k ∧ c.draw k ≤ 3/20) :
    (mkInitialParams c).length = 10 * c.layers * c.nqubits + 2 * c.nqubits ∧
    (∀ v ∈ mkInitialParams c, -(3/20 : ℚ) ≤ v ∧ v ≤ 3/20) ∧
    (initTrain c).params = mkInitialParams c ∧
    (∀ k : ℕ, (trainN c k).params.length =
      10 * c.layers * c.nqubits + 2 * c.nqubits) := by
  refine ⟨by simp [mkInitialParams], ?_, rfl, trainN_params_length c⟩
  intro v hv
  simp only [mkInitialParams] at hv
  obtain ⟨k, -, rfl⟩ := List.mem_map.mp hv
  exact hdraw k

/-- Witness for C9 on the concrete configuration `cW`. -/
theorem train_constructs_params_witness :
    (∀ k : ℕ, -(3/20 : ℚ) ≤ cW.draw k ∧ cW.draw k ≤ 3/20) ∧
    (mkInitialParams cW).length = 10 * cW.layers * cW.nqubits + 2 * cW.nqubits :=
  ⟨fun _ => by norm_num [cW], (train_constructs_params cW (fun _ => by norm_num [cW])).1⟩

end Qgan

namespace IcarusQ

theorem assignRow_length {r r' : List ℚ} (h : assignRow r = some r') :
    r'.length = sample_size := by
  unfold assignRow at h
  by_cases h1 : r.length = sample_size
  · rw [if_pos h1] at h
    cases h
    exact h1
  · rw [if_neg h1] at h
    by_cases h2 : r.length = 1
    · rw [if_pos h2] at h
      cases h
      simp
    · rw [if_neg h2] at h
      simp at h

/-- C10: whenever `IcarusQ.download` returns, the result has exactly
`nchannels = 4` rows of `sample_size = 32000` entries each, and row `i` is
obtained from the parsed text of channel `i` with its final parsed entry
discarded (the `[:-1]` slice) before storage. -/
theorem download_shape_dropLast (fetch : ℕ → List ℚ) (w : List (List ℚ))
    (h : download fetch = some w) :
    w.length = 4 ∧
    (∀ row ∈ w, row.length = 32000) ∧
    (∀ i, i < nchannels → assignRow ((fetch i).dropLast) = some (w.getD i [])) := by
  have hr : List.range nchannels = [0, 1, 2, 3] := rfl
  obtain ⟨r0, h0⟩ : ∃ r, assignRow (fetch 0).dropLast = some r := by
    cases ha : assignRow (fetch 0).dropLast with
    | some r => exact ⟨r, rfl⟩
    | none => rw [download, hr] at h; simp [ha] at h
  obtain ⟨r1, h1⟩ : ∃ r, assignRow (fetch 1).dropLast = some r := by
    cases ha : assignRow (fetch 1).dropLast with
    | some r => exact ⟨r, rfl⟩
    | none => rw [download, hr] at h; simp [h0, ha] at h
  obtain ⟨r2, h2⟩ : ∃ r, assignRow (fetch 2).dropLast = some r := by
    cases ha : assignRow (fetch 2).dropLast with
    | some r => exact ⟨r, rfl⟩
    | none => rw [download, hr] at h; simp [h0, h1, ha] at h
  obtain ⟨r3, h3⟩ : ∃ r, assignRow (fetch 3).dropLast = some r := by
    cases ha : assignRow (fetch 3).dropLast with
    | some r => exact ⟨r, rfl⟩
    | none => rw [download, hr] at h; simp [h0, h1, h2, ha] at h
  rw [download, hr] at h
  simp only [List.foldl_cons, List.foldl_nil] at h
  simp [h0, h1, h2, h3] at h
  subst h
  refine ⟨rfl, ?_, ?_⟩
  · intro row hrow
    simp only [List.mem_cons, List.mem_singleton, List.not_mem_nil, or_false] at hrow
    rcases hrow with rfl | rfl | rfl | rfl
    · exact assignRow_length h0
    · exact assignRow_length h1
    · exact assignRow_length h2
    · exact assignRow_length h3
  · intro i hi
    have hi4 : i < 4 := hi
    interval_cases i
    · exact h0
    · exact h1
    · exact h2
    · exact h3

/-- Witness for C10 on channels whose parsed text holds two zero entries, so
the stored rows are length-one broadcasts. -/
theorem download_shape_dropLast_witness :
    download (fun _ => List.replicate 2 0) =
      some [List.replicate 32000 0, List.replicate 32000 0, List.replicate 32000 0,
        List.replicate 32000 0] ∧
    ([List.replicate 32000 (0:ℚ), List.replicate 32000 0, List.replicate 32000 0,
        List.replicate 32000 0].length = 4) := by
  have hd : download (fun _ => List.replicate 2 0) =
      some [List.replicate 32000 0, List.replicate 32000 0, List.replicate 32000 0,
        List.replicate 32000 0] := rfl
  exact ⟨hd, (download_shape_dropLast _ _ hd).1⟩

end IcarusQ
